import Mathlib

/-!
Shallow embedding of the trade-flow analytics pipeline in `src/app.py`
(functions `calculate_cvd`, `categorize_trades`, `analyze_liquidity`,
`analyze_market_maker_activity`), together with theorems settling the
specification claims about it.

Modelling conventions:
* A pandas DataFrame of trades is a `List` of row structures, in table order.
* float64 values that can be non-finite (quantiles of an empty series,
  OHLC of an empty resample window, results of division) are modelled by
  `NpFloat`: an exact rational for the finite case plus the IEEE specials
  NaN / +inf / -inf produced by numpy arithmetic.  Values that the code can
  only ever make finite (quantity, price, volume_delta, cvd and their sums)
  stay in `ℚ`.
* Timestamps are natural-number epoch milliseconds; the pandas resample
  rule '1H' is a fixed bucket width `H` (3600000 ms), and a trade at time
  `t` falls in bucket `t / H` (integer division), matching left-closed
  calendar-aligned resample bins.
* A Python function that can raise on some input returns `Option` and
  yields `none` exactly where the code raises.
-/

/-- Model of a numpy/pandas float64 value: an exact rational, or one of the
non-finite IEEE specials that numpy arithmetic produces (NaN, +inf, -inf).
Rounding of finite values is not modelled; the claims under study concern
only comparisons, sums and exact divisions. -/
inductive NpFloat where
  | fin (q : ℚ)
  | nan
  | pinf
  | ninf
deriving DecidableEq, Repr

namespace NpFloat

/-- IEEE-style subtraction on `NpFloat` (NaN propagates, inf - inf = NaN). -/
def sub : NpFloat → NpFloat → NpFloat
  | nan, _ => nan
  | _, nan => nan
  | fin a, fin b => fin (a - b)
  | fin _, pinf => ninf
  | fin _, ninf => pinf
  | pinf, fin _ => pinf
  | pinf, pinf => nan
  | pinf, ninf => pinf
  | ninf, fin _ => ninf
  | ninf, pinf => ninf
  | ninf, ninf => nan

/-- IEEE-style addition on `NpFloat` (NaN propagates, inf + (-inf) = NaN). -/
def add : NpFloat → NpFloat → NpFloat
  | nan, _ => nan
  | _, nan => nan
  | fin a, fin b => fin (a + b)
  | fin _, pinf => pinf
  | fin _, ninf => ninf
  | pinf, fin _ => pinf
  | pinf, pinf => pinf
  | pinf, ninf => nan
  | ninf, fin _ => ninf
  | ninf, pinf => nan
  | ninf, ninf => ninf

/-- IEEE-style multiplication on `NpFloat` (NaN propagates, inf * 0 = NaN). -/
def mul : NpFloat → NpFloat → NpFloat
  | nan, _ => nan
  | _, nan => nan
  | fin a, fin b => fin (a * b)
  | fin a, pinf => if a = 0 then nan else if 0 < a then pinf else ninf
  | fin a, ninf => if a = 0 then nan else if 0 < a then ninf else pinf
  | pinf, fin b => if b = 0 then nan else if 0 < b then pinf else ninf
  | pinf, pinf => pinf
  | pinf, ninf => ninf
  | ninf, fin b => if b = 0 then nan else if 0 < b then ninf else pinf
  | ninf, pinf => ninf
  | ninf, ninf => pinf

/-- IEEE-style division on `NpFloat`: numpy yields NaN for 0/0, signed
infinity for x/0 with x ≠ 0, 0 for finite/inf, NaN for inf/inf. -/
def div : NpFloat → NpFloat → NpFloat
  | nan, _ => nan
  | _, nan => nan
  | fin a, fin b =>
      if b = 0 then (if a = 0 then nan else if 0 < a then pinf else ninf)
      else fin (a / b)
  | fin _, pinf => fin 0
  | fin _, ninf => fin 0
  | pinf, fin b => if 0 ≤ b then pinf else ninf
  | pinf, pinf => nan
  | pinf, ninf => nan
  | ninf, fin b => if 0 ≤ b then ninf else pinf
  | ninf, pinf => nan
  | ninf, ninf => nan

/-- IEEE-style absolute value (abs NaN = NaN, abs(-inf) = +inf). -/
def abs : NpFloat → NpFloat
  | fin a => fin |a|
  | nan => nan
  | pinf => pinf
  | ninf => pinf

/-- The numpy comparison `q < p` where `p` may be non-finite: every
comparison against NaN is False. -/
def qLt (q : ℚ) : NpFloat → Bool
  | fin v => q < v
  | nan => false
  | pinf => true
  | ninf => false

/-- The numpy comparison `q >= p` where `p` may be non-finite: every
comparison against NaN is False. -/
def qGe (q : ℚ) : NpFloat → Bool
  | fin v => v ≤ q
  | nan => false
  | pinf => false
  | ninf => true

end NpFloat

/-- One raw trade row after the normalizer: the canonical columns used by
the pipeline. `ts` is the epoch-millisecond timestamp behind the `datetime`
column; `side` is the raw exchange string (lowercase "buy" / "sell" in the
data feed). -/
structure Trade where
  ts : ℕ
  price : ℚ
  quantity : ℚ
  side : String
deriving DecidableEq, Repr

/-- A trade row after `calculate_cvd` added the `volume_delta` and `cvd`
columns. -/
structure CvdRow where
  ts : ℕ
  price : ℚ
  quantity : ℚ
  side : String
  volume_delta : ℚ
  cvd : ℚ
deriving DecidableEq, Repr

/-- A trade row after `categorize_trades` added the `category` column. -/
structure CatRow where
  ts : ℕ
  price : ℚ
  quantity : ℚ
  side : String
  volume_delta : ℚ
  cvd : ℚ
  category : String
deriving DecidableEq, Repr

/-- The per-row lambda of `calculate_cvd` (app.py line 40):
`x['quantity'] if x['side'] == 'buy' else -x['quantity']`. -/
def volumeDeltaOf (t : Trade) : ℚ :=
  if t.side = "buy" then t.quantity else -t.quantity

/-- Accumulator pass implementing `cumsum` over the `volume_delta` column:
`acc` is the running sum of all deltas of earlier rows. -/
def cvdGo (acc : ℚ) : List Trade → List CvdRow
  | [] => []
  | t :: ts =>
      { ts := t.ts, price := t.price, quantity := t.quantity, side := t.side,
        volume_delta := volumeDeltaOf t, cvd := acc + volumeDeltaOf t }
        :: cvdGo (acc + volumeDeltaOf t) ts

/-- `calculate_cvd` (app.py lines 38-42): adds `volume_delta` (signed
quantity) and `cvd` (its running cumulative sum) to every row. -/
def calculate_cvd (df : List Trade) : List CvdRow :=
  cvdGo 0 df

/-- Linear interpolation into a sorted list at fractional position `h`:
the value at order statistic `⌊h⌋`, moved toward the next order statistic
by the fractional part of `h`.  This is the interpolation step of
`pandas.Series.quantile` with the default method. -/
def interp (s : List ℚ) (h : ℚ) : ℚ :=
  s.getD (⌊h⌋).toNat 0
    + (h - (⌊h⌋ : ℚ))
      * (s.getD ((⌊h⌋).toNat + 1) (s.getD (⌊h⌋).toNat 0)
          - s.getD (⌊h⌋).toNat 0)

/-- Model of `pandas.Series.quantile` with the default linear interpolation:
on a non-empty series, sort the values and interpolate at position
`h = f * (n - 1)`; on an empty series pandas returns NaN (it does not
raise). -/
def quantile (xs : List ℚ) (f : ℚ) : NpFloat :=
  match xs with
  | [] => .nan
  | _ :: _ =>
      .fin (interp (List.insertionSort (· ≤ ·) xs)
        (f * ((xs.length : ℚ) - 1)))

/-- The `np.select(conditions, categories, default='small')` of
`categorize_trades` (app.py lines 49-56), applied to one row's quantity:
conditions are tried in order and the first true one wins; comparisons
against a NaN percentile are False. -/
def selectCategory (p50 p75 : NpFloat) (q : ℚ) : String :=
  if NpFloat.qLt q p50 then "small"
  else if NpFloat.qGe q p50 && NpFloat.qLt q p75 then "medium"
  else if NpFloat.qGe q p75 then "large"
  else "small"

/-- `categorize_trades` (app.py lines 44-58): computes the 0.5 / 0.75 / 0.9
quantiles of the quantity column and assigns each row a size category via
`np.select`; returns the categorized table and the three percentiles. -/
def categorize_trades (df : List CvdRow) :
    List CatRow × (NpFloat × NpFloat × NpFloat) :=
  let qs := df.map (·.quantity)
  let p50 := quantile qs (1 / 2)
  let p75 := quantile qs (3 / 4)
  let p90 := quantile qs (9 / 10)
  (df.map (fun r =>
      { ts := r.ts, price := r.price, quantity := r.quantity, side := r.side,
        volume_delta := r.volume_delta, cvd := r.cvd,
        category := selectCategory p50 p75 r.quantity }),
   (p50, p75, p90))

/-- One output row of the resample aggregation in `analyze_liquidity`
(app.py lines 62-69).  `window_start` is the left edge of the bucket;
OHLC / cvd are NaN for a bucket containing no trades (pandas leaves those
aggregations NaN), while `volume` (a sum) is 0 there. -/
structure LiqWindow where
  window_start : ℕ
  volume : ℚ
  open_ : NpFloat
  close : NpFloat
  low : NpFloat
  high : NpFloat
  cvd : NpFloat
  volatility : NpFloat
deriving DecidableEq, Repr

/-- The aggregation of one resample bucket `k` (trades with `ts / H = k`):
volume = sum of quantity, open/close = first/last price in table order,
low/high = min/max price, cvd = last cvd, and
volatility = (high - low) / open * 100 in numpy float arithmetic. -/
def mkWindow (H : ℕ) (df : List CatRow) (k : ℕ) : LiqWindow :=
  let rows := df.filter (fun r => r.ts / H = k)
  let open_ : NpFloat :=
    match rows.head? with
    | none => .nan
    | some r => .fin r.price
  let close : NpFloat :=
    match rows.getLast? with
    | none => .nan
    | some r => .fin r.price
  let low : NpFloat :=
    match rows with
    | [] => .nan
    | r :: rs => .fin ((rs.map (·.price)).foldl min r.price)
  let high : NpFloat :=
    match rows with
    | [] => .nan
    | r :: rs => .fin ((rs.map (·.price)).foldl max r.price)
  let cvd : NpFloat :=
    match rows.getLast? with
    | none => .nan
    | some r => .fin r.cvd
  { window_start := k * H,
    volume := (rows.map (·.quantity)).sum,
    open_ := open_, close := close, low := low, high := high, cvd := cvd,
    volatility := ((high.sub low).div open_).mul (.fin 100) }

/-- `analyze_liquidity` (app.py lines 60-70): resample the table into
fixed-width time buckets.  Pandas emits one row per bucket from the
earliest to the latest occupied bucket, including the empty buckets in
between; an empty input table resamples to an empty output.  `H` is the
bucket width in the timestamp unit (3600000 ms for the default '1H'). -/
def analyze_liquidity (df : List CatRow) (H : ℕ) : List LiqWindow :=
  match df with
  | [] => []
  | r :: _ =>
      let bins := df.map (fun x => x.ts / H)
      let lo := bins.foldl min (r.ts / H)
      let hi := bins.foldl max (r.ts / H)
      (List.range (hi + 1 - lo)).map (fun j => mkWindow H df (lo + j))

/-- Mean of a rational series: NaN on an empty series (pandas `mean`). -/
def seriesMean (xs : List ℚ) : NpFloat :=
  match xs with
  | [] => .nan
  | _ :: _ => .fin (xs.sum / (xs.length : ℚ))

/-- Tail of `pandas.Series.pct_change`: each element's relative change
from `prev`, in numpy float arithmetic. -/
def pctGo (prev : ℚ) : List ℚ → List NpFloat
  | [] => []
  | p :: rest =>
      ((NpFloat.fin p).sub (.fin prev)).div (.fin prev) :: pctGo p rest

/-- `pandas.Series.pct_change`: the first row has no predecessor and is
NaN; row `i > 0` is `(p_i - p_{i-1}) / p_{i-1}`. -/
def pct_change (ps : List ℚ) : List NpFloat :=
  match ps with
  | [] => []
  | p :: rest => .nan :: pctGo p rest

/-- Pandas mean over a float series with the default `skipna=True`: NaN
entries are dropped; the mean of what remains, NaN if nothing remains. -/
def npMeanSkipna (xs : List NpFloat) : NpFloat :=
  let vs := xs.filter (fun v => v ≠ NpFloat.nan)
  match vs with
  | [] => .nan
  | _ :: _ => (vs.foldl NpFloat.add (.fin 0)).div (.fin (vs.length : ℚ))

/-- The per-category statistics dictionary built in the loop of
`analyze_market_maker_activity` (app.py lines 78-92). -/
structure CatStats where
  total_trades : ℕ
  buy_trades : ℕ
  sell_trades : ℕ
  buy_volume : ℚ
  sell_volume : ℚ
  net_volume : ℚ
  avg_trade_size : NpFloat
  avg_price_impact : NpFloat
deriving DecidableEq, Repr

/-- One iteration of the category loop (app.py lines 78-92): restrict the
table to one category, split by side, and aggregate. -/
def catStatsOf (df : List CatRow) (cat : String) : CatStats :=
  let cat_df := df.filter (fun r => r.category = cat)
  let buys := cat_df.filter (fun r => r.side = "buy")
  let sells := cat_df.filter (fun r => r.side = "sell")
  { total_trades := cat_df.length,
    buy_trades := buys.length,
    sell_trades := sells.length,
    buy_volume := (buys.map (·.quantity)).sum,
    sell_volume := (sells.map (·.quantity)).sum,
    net_volume := (buys.map (·.quantity)).sum - (sells.map (·.quantity)).sum,
    avg_trade_size := seriesMean (cat_df.map (·.quantity)),
    avg_price_impact :=
      (npMeanSkipna ((pct_change (cat_df.map (·.price))).map NpFloat.abs)).mul
        (.fin 100) }

/-- Model of `pandas.Series.std()` squared.  Pandas `std` defaults to
`ddof=1` (sample standard deviation): for fewer than two values the
divisor `n - 1` makes it NaN; otherwise it is the square root of
`sum (x - mean)^2 / (n - 1)`.  The value is kept squared so it stays in
`ℚ`; squaring is injective on the nonnegative reals, so which divisor the
code uses, and where it is NaN, are fully visible here. -/
def seriesStdSq (xs : List ℚ) : NpFloat :=
  if xs.length ≤ 1 then .nan
  else
    let m := xs.sum / (xs.length : ℚ)
    .fin (((xs.map (fun x => (x - m) ^ 2)).sum) / ((xs.length : ℚ) - 1))

/-- The `cvd_stats` dictionary (app.py lines 100-105).  These fields are
only built on a non-empty table (see `analyze_market_maker_activity`), so
final / max / min are plain rationals. -/
structure CvdStats where
  final_cvd : ℚ
  max_cvd : ℚ
  min_cvd : ℚ
  cvd_volatility_sq : NpFloat
deriving DecidableEq, Repr

/-- The result dictionary of `analyze_market_maker_activity`. -/
structure MMAnalysis where
  small : CatStats
  medium : CatStats
  large : CatStats
  market_maker_dominance : NpFloat
  cvd_stats : CvdStats
deriving DecidableEq, Repr

/-- `analyze_market_maker_activity` (app.py lines 72-107).  On an empty
table the statement `df['cvd'].iloc[-1]` (line 101) raises `IndexError`,
so the whole call fails: modelled as `none`.  The `volume_percentiles`
argument is accepted but never read, exactly as in the source.  Dominance
is the numpy float `mm_volume / total_volume * 100` (line 97), computed
unconditionally — a zero total volume flows through float division. -/
def analyze_market_maker_activity (df : List CatRow)
    (volume_percentiles : NpFloat × NpFloat × NpFloat) :
    Option MMAnalysis :=
  match df with
  | [] => none
  | r :: rs =>
      let small := catStatsOf df "small"
      let medium := catStatsOf df "medium"
      let large := catStatsOf df "large"
      let total_volume := (df.map (·.quantity)).sum
      let mm_volume := large.buy_volume + large.sell_volume
      let cvds := df.map (·.cvd)
      some
        { small := small, medium := medium, large := large,
          market_maker_dominance :=
            ((NpFloat.fin mm_volume).div (.fin total_volume)).mul (.fin 100),
          cvd_stats :=
            { final_cvd := ((r :: rs).map (·.cvd)).getLast (by simp),
              max_cvd := (rs.map (·.cvd)).foldl max r.cvd,
              min_cvd := (rs.map (·.cvd)).foldl min r.cvd,
              cvd_volatility_sq := seriesStdSq cvds } }

/-! ### Default rows (used as `getD` fallbacks in theorem statements) -/

def trade0 : Trade := { ts := 0, price := 0, quantity := 0, side := "" }

def cvdRow0 : CvdRow :=
  { ts := 0, price := 0, quantity := 0, side := "", volume_delta := 0, cvd := 0 }

def catRow0 : CatRow :=
  { ts := 0, price := 0, quantity := 0, side := "", volume_delta := 0,
    cvd := 0, category := "" }

def liqWindow0 : LiqWindow :=
  { window_start := 0, volume := 0, open_ := .nan, close := .nan, low := .nan,
    high := .nan, cvd := .nan, volatility := .nan }

/-- The three-trade scenario from the specification (section 8): two buys of
quantity 1 around one sell of quantity 2. -/
def exTrades : List Trade :=
  [{ ts := 0, price := 100, quantity := 1, side := "buy" },
   { ts := 1, price := 101, quantity := 2, side := "sell" },
   { ts := 2, price := 99, quantity := 1, side := "buy" }]

/-! ### Helper lemmas about `cvdGo` -/

lemma cvdGo_length (rows : List Trade) : ∀ acc : ℚ,
    (cvdGo acc rows).length = rows.length := by
  induction rows with
  | nil => intro acc; rfl
  | cons t ts ih => intro acc; simp [cvdGo, ih]

lemma cvdGo_map_vd (rows : List Trade) : ∀ acc : ℚ,
    (cvdGo acc rows).map (·.volume_delta) = rows.map volumeDeltaOf := by
  induction rows with
  | nil => intro acc; rfl
  | cons t ts ih => intro acc; simp [cvdGo, ih]

lemma cvdGo_vd (rows : List Trade) : ∀ (acc : ℚ) (i : ℕ), i < rows.length →
    ((cvdGo acc rows).getD i cvdRow0).volume_delta
      = volumeDeltaOf (rows.getD i trade0) := by
  induction rows with
  | nil => intro acc i h; simp at h
  | cons t ts ih =>
      intro acc i h
      cases i with
      | zero => simp [cvdGo]
      | succ n =>
          simp only [cvdGo, List.getD_cons_succ]
          exact ih _ n (by simpa using h)

lemma cvdGo_cvd (rows : List Trade) : ∀ (acc : ℚ) (i : ℕ), i < rows.length →
    ((cvdGo acc rows).getD i cvdRow0).cvd
      = acc + ((rows.take (i + 1)).map volumeDeltaOf).sum := by
  induction rows with
  | nil => intro acc i h; simp at h
  | cons t ts ih =>
      intro acc i h
      cases i with
      | zero => simp [cvdGo]
      | succ n =>
          simp only [cvdGo, List.getD_cons_succ, List.take_succ_cons,
            List.map_cons, List.sum_cons]
          rw [ih (acc + volumeDeltaOf t) n (by simpa using h)]
          ring

lemma take_map_sum_succ (rows : List Trade) (i : ℕ) (h : i < rows.length) :
    ((rows.take (i + 1)).map volumeDeltaOf).sum
      = ((rows.take i).map volumeDeltaOf).sum
        + volumeDeltaOf (rows.getD i trade0) := by
  have h' : i < (rows.map volumeDeltaOf).length := by simpa using h
  have hs := List.sum_take_succ (rows.map volumeDeltaOf) i h'
  simp only [List.map_take] at hs ⊢
  rw [hs, List.getElem_map]
  simp [List.getD_eq_getElem?_getD, List.getElem?_eq_getElem h]

/-- C1: for every TradeTable, `calculate_cvd` sets `volume_delta` of each
row to `quantity` when the side is BUY (the feed string "buy") and to
`-quantity` otherwise, and sets the `cvd` column to the running sum of
`volume_delta` in table order: `cvd[0] = volume_delta[0]`,
`cvd[i] = cvd[i-1] + volume_delta[i]` for `i > 0`, and the last `cvd`
value equals the sum of the whole `volume_delta` column. -/
theorem calculate_cvd_spec (rows : List Trade) :
    (calculate_cvd rows).length = rows.length ∧
    (∀ i, i < rows.length →
      ((calculate_cvd rows).getD i cvdRow0).volume_delta
        = (if (rows.getD i trade0).side = "buy" then (rows.getD i trade0).quantity
           else -(rows.getD i trade0).quantity)) ∧
    (0 < rows.length →
      ((calculate_cvd rows).getD 0 cvdRow0).cvd
        = ((calculate_cvd rows).getD 0 cvdRow0).volume_delta) ∧
    (∀ i, i + 1 < rows.length →
      ((calculate_cvd rows).getD (i + 1) cvdRow0).cvd
        = ((calculate_cvd rows).getD i cvdRow0).cvd
          + ((calculate_cvd rows).getD (i + 1) cvdRow0).volume_delta) ∧
    (rows ≠ [] →
      ((calculate_cvd rows).getD (rows.length - 1) cvdRow0).cvd
        = ((calculate_cvd rows).map (·.volume_delta)).sum) := by
  refine ⟨cvdGo_length rows 0, ?_, ?_, ?_, ?_⟩
  · intro i h
    rw [calculate_cvd, cvdGo_vd rows 0 i h, volumeDeltaOf]
  · intro h
    rw [calculate_cvd, cvdGo_cvd rows 0 0 h, cvdGo_vd rows 0 0 h]
    rcases rows with _ | ⟨t, ts⟩
    · simp at h
    · simp
  · intro i h
    rw [calculate_cvd, cvdGo_cvd rows 0 (i + 1) h,
      cvdGo_cvd rows 0 i (Nat.lt_of_succ_lt h), cvdGo_vd rows 0 (i + 1) h,
      take_map_sum_succ rows (i + 1) h]
    ring
  · intro h
    have hlen : 0 < rows.length := List.length_pos.mpr h
    have hlt : rows.length - 1 < rows.length := Nat.sub_lt hlen Nat.one_pos
    rw [calculate_cvd, cvdGo_cvd rows 0 (rows.length - 1) hlt, cvdGo_map_vd,
      Nat.sub_add_cancel (Nat.one_le_iff_ne_zero.mpr (Nat.pos_iff_ne_zero.mp hlen)),
      List.take_length]
    ring

/-- Witness for C1: on the specification's three-trade scenario the last
cvd value equals the sum of the volume_delta column (both are 0). -/
theorem calculate_cvd_spec_witness :
    ((calculate_cvd exTrades).getD (exTrades.length - 1) cvdRow0).cvd
      = ((calculate_cvd exTrades).map (·.volume_delta)).sum :=
  (calculate_cvd_spec exTrades).2.2.2.2 (by decide)

/-- C10 (implicit): `calculate_cvd` assigns a positive `volume_delta` only
when the `side` field is the exact lowercase string "buy"; any other side
value — including "BUY", "sell", or an unexpected string — yields
`volume_delta = -quantity`, i.e. counts as sell pressure. -/
theorem calculate_cvd_buy_string_only (rows : List Trade) :
    (∀ i, i < rows.length → (rows.getD i trade0).side ≠ "buy" →
      ((calculate_cvd rows).getD i cvdRow0).volume_delta
        = -(rows.getD i trade0).quantity) ∧
    (∀ i, i < rows.length → 0 ≤ (rows.getD i trade0).quantity →
      0 < ((calculate_cvd rows).getD i cvdRow0).volume_delta →
      (rows.getD i trade0).side = "buy") := by
  constructor
  · intro i h hside
    rw [calculate_cvd, cvdGo_vd rows 0 i h, volumeDeltaOf, if_neg hside]
  · intro i h hq hpos
    by_contra hside
    rw [calculate_cvd, cvdGo_vd rows 0 i h, volumeDeltaOf, if_neg hside] at hpos
    linarith

/-- Witness for C10: a trade whose side is the uppercase string "BUY" gets
volume_delta = -quantity (here -2), counted as sell pressure. -/
theorem calculate_cvd_buy_string_only_witness :
    ((calculate_cvd [{ ts := 0, price := 1, quantity := 2, side := "BUY" }]).getD
        0 cvdRow0).volume_delta
      = -(([{ ts := 0, price := 1, quantity := 2, side := "BUY" }] :
          List Trade).getD 0 trade0).quantity :=
  (calculate_cvd_buy_string_only
      [{ ts := 0, price := 1, quantity := 2, side := "BUY" }]).1 0 (by decide)
    (by decide)

/-- Counterexample for C5: on the empty table the categorizer does not
fail at all — `pandas.Series.quantile` of an empty series returns NaN
rather than raising — so `categorize_trades` returns normally: an empty
categorized table with NaN thresholds (and the code defines no
InsufficientDataError anywhere). -/
theorem categorize_trades_empty_returns :
    categorize_trades [] = ([], (NpFloat.nan, NpFloat.nan, NpFloat.nan)) := by
  rfl

/-- C5 as amended: on the empty TradeTable the categorizer completes
normally, returning an empty table and NaN (undefined) quantile
thresholds; requesting the final CVD value (the `iloc[-1]` in
analyze_market_maker_activity) fails with IndexError — modelled as `none`
— rather than returning a sentinel. -/
theorem empty_table_behaviour :
    categorize_trades [] = ([], (NpFloat.nan, NpFloat.nan, NpFloat.nan)) ∧
    analyze_market_maker_activity [] (NpFloat.nan, NpFloat.nan, NpFloat.nan)
      = none := by
  exact ⟨rfl, rfl⟩

/-! ### Quantile lemmas -/

lemma insertionSort_sorted (xs : List ℚ) :
    List.Sorted (· ≤ ·) (List.insertionSort (· ≤ ·) xs) :=
  List.sorted_insertionSort (· ≤ ·) xs

lemma sorted_getD_mono {s : List ℚ} (hs : s.Sorted (· ≤ ·)) {i j : ℕ}
    (hij : i ≤ j) (hj : j < s.length) : s.getD i 0 ≤ s.getD j 0 := by
  have hi : i < s.length := lt_of_le_of_lt hij hj
  rw [List.getD_eq_getElem?_getD, List.getElem?_eq_getElem hi, Option.getD_some,
      List.getD_eq_getElem?_getD, List.getElem?_eq_getElem hj, Option.getD_some]
  have h2 := hs.rel_get_of_le (a := ⟨i, hi⟩) (b := ⟨j, hj⟩) hij
  simpa using h2

lemma getD_default_irrel (s : List ℚ) (n : ℕ) (hn : n < s.length) (d d' : ℚ) :
    s.getD n d = s.getD n d' := by
  rw [List.getD_eq_getElem?_getD, List.getElem?_eq_getElem hn, Option.getD_some,
      List.getD_eq_getElem?_getD, List.getElem?_eq_getElem hn, Option.getD_some]

/-- The "bump" value used by `interp` never lies below the base order
statistic: in range it is the next order statistic of a sorted list, out of
range it defaults to the base itself. -/
lemma getD_bump_ge {s : List ℚ} (hs : s.Sorted (· ≤ ·)) {i : ℕ}
    (_hi : i < s.length) : s.getD i 0 ≤ s.getD (i + 1) (s.getD i 0) := by
  by_cases h : i + 1 < s.length
  · rw [getD_default_irrel s (i + 1) h _ 0]
    exact sorted_getD_mono hs (Nat.le_succ i) h
  · rw [List.getD_eq_default _ _ (Nat.le_of_not_lt h)]

/-- Monotonicity of sorted-list linear interpolation in the position. -/
lemma interp_mono {s : List ℚ} (hs : s.Sorted (· ≤ ·)) {h1 h2 : ℚ}
    (h0 : 0 ≤ h1) (h12 : h1 ≤ h2) (hub : h2 ≤ (s.length : ℚ) - 1) :
    interp s h1 ≤ interp s h2 := by
  have h02 : (0 : ℚ) ≤ h2 := le_trans h0 h12
  have hf1 : (0 : ℤ) ≤ ⌊h1⌋ := Int.floor_nonneg.mpr h0
  have hf2 : (0 : ℤ) ≤ ⌊h2⌋ := Int.floor_nonneg.mpr h02
  have hff : ⌊h1⌋ ≤ ⌊h2⌋ := Int.floor_le_floor h12
  have hn1 : 1 ≤ s.length := by
    have hq : (1 : ℚ) ≤ (s.length : ℚ) := by linarith
    exact_mod_cast hq
  have hub2 : ⌊h2⌋ ≤ (s.length : ℤ) - 1 := by
    have hq : (⌊h2⌋ : ℚ) ≤ (s.length : ℚ) - 1 := le_trans (Int.floor_le h2) hub
    exact_mod_cast hq
  have hi2 : (⌊h2⌋).toNat < s.length := by omega
  have hg1lo : (0 : ℚ) ≤ h1 - (⌊h1⌋ : ℚ) := by
    have := Int.floor_le h1; linarith
  have hg2lo : (0 : ℚ) ≤ h2 - (⌊h2⌋ : ℚ) := by
    have := Int.floor_le h2; linarith
  have hg1hi : h1 - (⌊h1⌋ : ℚ) < 1 := by
    have := Int.lt_floor_add_one h1; linarith
  rcases eq_or_lt_of_le hff with heq | hlt
  · -- same base order statistic: the fractional part grows
    have hg12 : h1 - (⌊h1⌋ : ℚ) ≤ h2 - (⌊h1⌋ : ℚ) := by linarith
    unfold interp
    rw [← heq]
    have hbump := getD_bump_ge hs (show (⌊h1⌋).toNat < s.length by omega)
    have := mul_le_mul_of_nonneg_right hg12 (sub_nonneg.mpr hbump)
    linarith
  · -- the base order statistic strictly advances
    have hi1 : (⌊h1⌋).toNat < s.length := by omega
    have hi1s : (⌊h1⌋).toNat + 1 ≤ (⌊h2⌋).toNat := by omega
    have hi1slt : (⌊h1⌋).toNat + 1 < s.length := lt_of_le_of_lt hi1s hi2
    have hstep1 : interp s h1 ≤ s.getD ((⌊h1⌋).toNat + 1) 0 := by
      unfold interp
      rw [getD_default_irrel s _ hi1slt _ 0]
      have hbase : s.getD (⌊h1⌋).toNat 0 ≤ s.getD ((⌊h1⌋).toNat + 1) 0 :=
        sorted_getD_mono hs (Nat.le_succ _) hi1slt
      have := mul_le_mul_of_nonneg_right (le_of_lt hg1hi)
        (sub_nonneg.mpr hbase)
      linarith
    have hstep2 : s.getD ((⌊h1⌋).toNat + 1) 0 ≤ s.getD (⌊h2⌋).toNat 0 :=
      sorted_getD_mono hs hi1s hi2
    have hstep3 : s.getD (⌊h2⌋).toNat 0 ≤ interp s h2 := by
      unfold interp
      have hbump := getD_bump_ge hs hi2
      have := mul_le_mul_of_nonneg_right hg2lo (sub_nonneg.mpr hbump)
      nlinarith [mul_nonneg hg2lo (sub_nonneg.mpr hbump)]
    linarith

lemma quantile_eq_of_ne_nil (xs : List ℚ) (hx : xs ≠ []) (f : ℚ) :
    quantile xs f
      = .fin (interp (List.insertionSort (· ≤ ·) xs)
          (f * ((xs.length : ℚ) - 1))) := by
  cases xs with
  | nil => exact absurd rfl hx
  | cons a l => rfl

/-- The quantile estimator is monotone in the cut point. -/
lemma quantile_mono (xs : List ℚ) (hx : xs ≠ []) {f1 f2 : ℚ} (h0 : 0 ≤ f1)
    (h12 : f1 ≤ f2) (h21 : f2 ≤ 1) :
    interp (List.insertionSort (· ≤ ·) xs) (f1 * ((xs.length : ℚ) - 1))
      ≤ interp (List.insertionSort (· ≤ ·) xs)
          (f2 * ((xs.length : ℚ) - 1)) := by
  have hn1 : 1 ≤ xs.length := List.length_pos.mpr hx
  have hnq : (0 : ℚ) ≤ (xs.length : ℚ) - 1 := by
    have hq : (1 : ℚ) ≤ (xs.length : ℚ) := by exact_mod_cast hn1
    linarith
  apply interp_mono (insertionSort_sorted xs)
  · exact mul_nonneg h0 hnq
  · exact mul_le_mul_of_nonneg_right h12 hnq
  · rw [List.length_insertionSort]
    exact mul_le_of_le_one_left hnq h21

/-- On a constant series every quantile equals the constant. -/
lemma quantile_const (xs : List ℚ) (q0 : ℚ) (hx : xs ≠ [])
    (hall : ∀ x ∈ xs, x = q0) {f : ℚ} (h0 : 0 ≤ f) (h1 : f ≤ 1) :
    quantile xs f = .fin q0 := by
  rw [quantile_eq_of_ne_nil xs hx]
  have hn1 : 1 ≤ xs.length := List.length_pos.mpr hx
  have hnq : (0 : ℚ) ≤ (xs.length : ℚ) - 1 := by
    have hq : (1 : ℚ) ≤ (xs.length : ℚ) := by exact_mod_cast hn1
    linarith
  set s := List.insertionSort (· ≤ ·) xs with hsdef
  have hslen : s.length = xs.length := List.length_insertionSort _ xs
  have hmem : ∀ x ∈ s, x = q0 := fun x hxs =>
    hall x ((List.perm_insertionSort _ xs).mem_iff.mp hxs)
  set h := f * ((xs.length : ℚ) - 1) with hhdef
  have hh0 : (0 : ℚ) ≤ h := mul_nonneg h0 hnq
  have hhub : h ≤ (xs.length : ℚ) - 1 := mul_le_of_le_one_left hnq h1
  have hf0 : (0 : ℤ) ≤ ⌊h⌋ := Int.floor_nonneg.mpr hh0
  have hub2 : ⌊h⌋ ≤ (xs.length : ℤ) - 1 := by
    have hq : (⌊h⌋ : ℚ) ≤ (xs.length : ℚ) - 1 := le_trans (Int.floor_le h) hhub
    exact_mod_cast hq
  have hi : (⌊h⌋).toNat < s.length := by omega
  have hlo : s.getD (⌊h⌋).toNat 0 = q0 := by
    rw [List.getD_eq_getElem?_getD, List.getElem?_eq_getElem hi,
      Option.getD_some]
    exact hmem _ (List.getElem_mem hi)
  have hbump : s.getD ((⌊h⌋).toNat + 1) (s.getD (⌊h⌋).toNat 0) = q0 := by
    by_cases hr : (⌊h⌋).toNat + 1 < s.length
    · rw [List.getD_eq_getElem?_getD, List.getElem?_eq_getElem hr,
        Option.getD_some]
      exact hmem _ (List.getElem_mem hr)
    · rw [List.getD_eq_default _ _ (Nat.le_of_not_lt hr)]
      exact hlo
  unfold interp
  rw [hbump, hlo]
  simp

/-! ### Category selection lemmas -/

/-- Spec-side ordering SMALL < MEDIUM < LARGE on the category strings the
code produces; any other string is ranked above LARGE so the order of the
three known categories is unaffected. -/
def catRank (c : String) : ℕ :=
  if c = "small" then 0 else if c = "medium" then 1 else 2

lemma selectCategory_small {a b q : ℚ} (h : q < a) :
    selectCategory (.fin a) (.fin b) q = "small" := by
  simp [selectCategory, NpFloat.qLt, h]

lemma selectCategory_medium {a b q : ℚ} (h1 : a ≤ q) (h2 : q < b) :
    selectCategory (.fin a) (.fin b) q = "medium" := by
  simp [selectCategory, NpFloat.qLt, NpFloat.qGe, not_lt.mpr h1, h1, h2]

lemma selectCategory_large {a b q : ℚ} (hab : a ≤ b) (h : b ≤ q) :
    selectCategory (.fin a) (.fin b) q = "large" := by
  simp [selectCategory, NpFloat.qLt, NpFloat.qGe, not_lt.mpr (le_trans hab h),
    not_lt.mpr h, h]

lemma selectCategory_mem (p50 p75 : NpFloat) (q : ℚ) :
    selectCategory p50 p75 q = "small" ∨ selectCategory p50 p75 q = "medium" ∨
      selectCategory p50 p75 q = "large" := by
  unfold selectCategory
  split_ifs <;> simp

lemma rank_ff (a b q : ℚ) : catRank (selectCategory (.fin a) (.fin b) q)
    = if q < a then 0 else if q < b then 1 else 2 := by
  by_cases h1 : q < a
  · simp [selectCategory, NpFloat.qLt, h1, catRank]
  · by_cases h2 : q < b
    · have hm : selectCategory (.fin a) (.fin b) q = "medium" :=
        selectCategory_medium (le_of_not_lt h1) h2
      rw [hm]; simp [catRank, h1, h2]
    · have hl : selectCategory (.fin a) (.fin b) q = "large" := by
        simp [selectCategory, NpFloat.qLt, NpFloat.qGe, h1, h2,
          le_of_not_lt h2]
      rw [hl]; simp [catRank, h1, h2]

lemma rank_nf (b q : ℚ) : catRank (selectCategory .nan (.fin b) q)
    = if b ≤ q then 2 else 0 := by
  simp only [selectCategory, NpFloat.qLt, NpFloat.qGe, Bool.and_eq_true,
    decide_eq_true_eq, Bool.false_and, Bool.false_eq_true, if_false]
  split_ifs <;> decide

lemma rank_mf (b q : ℚ) : catRank (selectCategory .ninf (.fin b) q)
    = if q < b then 1 else 2 := by
  simp only [selectCategory, NpFloat.qLt, NpFloat.qGe, Bool.and_eq_true,
    decide_eq_true_eq, Bool.true_and, Bool.false_eq_true, if_false]
  split_ifs with h1 h2 <;>
    first
      | decide
      | (exfalso; linarith [le_of_not_lt h1])

lemma rank_fp (a q : ℚ) : catRank (selectCategory (.fin a) .pinf q)
    = if q < a then 0 else 1 := by
  simp only [selectCategory, NpFloat.qLt, NpFloat.qGe, Bool.and_eq_true,
    decide_eq_true_eq, Bool.and_true]
  split_ifs with h1 h2 <;>
    first
      | decide
      | (exfalso; exact h2 (le_of_not_lt h1))

lemma rank_fm (a q : ℚ) : catRank (selectCategory (.fin a) .ninf q)
    = if q < a then 0 else 2 := by
  simp only [selectCategory, NpFloat.qLt, NpFloat.qGe, Bool.and_eq_true,
    decide_eq_true_eq, Bool.and_false, Bool.false_eq_true, if_false]
  split_ifs <;> decide

lemma rank_fn (a q : ℚ) : catRank (selectCategory (.fin a) .nan q) = 0 := by
  simp only [selectCategory, NpFloat.qLt, NpFloat.qGe, Bool.and_false,
    Bool.false_eq_true, if_false]
  split_ifs <;> decide

/-- Under any pair of thresholds the np.select cascade of
`categorize_trades` is monotone in the quantity. -/
lemma selectCategory_monotone (p50 p75 : NpFloat) {q1 q2 : ℚ} (h : q1 ≤ q2) :
    catRank (selectCategory p50 p75 q1)
      ≤ catRank (selectCategory p50 p75 q2) := by
  rcases p50 with a | _ | _ | _ <;> rcases p75 with b | _ | _ | _
  · rw [rank_ff, rank_ff]; split_ifs <;> first | decide | linarith
  · rw [rank_fn, rank_fn]
  · rw [rank_fp, rank_fp]; split_ifs <;> first | decide | linarith
  · rw [rank_fm, rank_fm]; split_ifs <;> first | decide | linarith
  · rw [rank_nf, rank_nf]; split_ifs <;> first | decide | linarith
  · rfl
  · rfl
  · rfl
  · rfl
  · rfl
  · rfl
  · rfl
  · rw [rank_mf, rank_mf]; split_ifs <;> first | decide | linarith
  · rfl
  · rfl
  · rfl

/-- C2: for every non-empty TradeTable the quantile thresholds p50 and p75
are finite, p50 ≤ p75, and `categorize_trades` assigns quantity < p50 the
category small, p50 ≤ quantity < p75 the category medium, and
quantity ≥ p75 the category large.  Because those three clauses cover every
quantity and mention only p50 and p75, the computed p90 threshold cannot
influence any row's category (every row with quantity ≥ p75 is large
regardless of p90). -/
theorem categorize_trades_boundaries (df : List CvdRow) (hdf : df ≠ []) :
    ∃ a b : ℚ,
      (categorize_trades df).2.1 = .fin a ∧
      (categorize_trades df).2.2.1 = .fin b ∧
      a ≤ b ∧
      ∀ r ∈ (categorize_trades df).1,
        (r.quantity < a → r.category = "small") ∧
        (a ≤ r.quantity → r.quantity < b → r.category = "medium") ∧
        (b ≤ r.quantity → r.category = "large") := by
  have hqs : df.map (·.quantity) ≠ [] := by simpa using hdf
  refine ⟨interp (List.insertionSort (· ≤ ·) (df.map (·.quantity)))
      ((1 / 2) * (((df.map (·.quantity)).length : ℚ) - 1)),
    interp (List.insertionSort (· ≤ ·) (df.map (·.quantity)))
      ((3 / 4) * (((df.map (·.quantity)).length : ℚ) - 1)),
    quantile_eq_of_ne_nil _ hqs _, quantile_eq_of_ne_nil _ hqs _,
    quantile_mono _ hqs (by norm_num) (by norm_num) (by norm_num), ?_⟩
  have hAB := quantile_mono (df.map (·.quantity)) hqs
    (show (0 : ℚ) ≤ 1 / 2 by norm_num) (show (1 : ℚ) / 2 ≤ 3 / 4 by norm_num)
    (show (3 : ℚ) / 4 ≤ 1 by norm_num)
  have e50 := quantile_eq_of_ne_nil (df.map (·.quantity)) hqs (1 / 2)
  have e75 := quantile_eq_of_ne_nil (df.map (·.quantity)) hqs (3 / 4)
  intro r hr
  obtain ⟨x, hx, rfl⟩ := List.mem_map.mp hr
  refine ⟨fun h => ?_, fun h1 h2 => ?_, fun h => ?_⟩
  · show selectCategory (quantile (df.map (·.quantity)) (1 / 2))
      (quantile (df.map (·.quantity)) (3 / 4)) x.quantity = "small"
    rw [e50, e75]
    exact selectCategory_small h
  · show selectCategory (quantile (df.map (·.quantity)) (1 / 2))
      (quantile (df.map (·.quantity)) (3 / 4)) x.quantity = "medium"
    rw [e50, e75]
    exact selectCategory_medium h1 h2
  · show selectCategory (quantile (df.map (·.quantity)) (1 / 2))
      (quantile (df.map (·.quantity)) (3 / 4)) x.quantity = "large"
    rw [e50, e75]
    exact selectCategory_large hAB h

/-- Witness for C2: on the specification's three-trade scenario there are
finite thresholds with the three boundary clauses holding for every row. -/
theorem categorize_trades_boundaries_witness :
    ∃ a b : ℚ,
      (categorize_trades (calculate_cvd exTrades)).2.1 = .fin a ∧
      (categorize_trades (calculate_cvd exTrades)).2.2.1 = .fin b ∧
      a ≤ b ∧
      ∀ r ∈ (categorize_trades (calculate_cvd exTrades)).1,
        (r.quantity < a → r.category = "small") ∧
        (a ≤ r.quantity → r.quantity < b → r.category = "medium") ∧
        (b ≤ r.quantity → r.category = "large") :=
  categorize_trades_boundaries (calculate_cvd exTrades) (by decide)

/-- C3: every row of a categorized table receives exactly one category,
which is one of small / medium / large, and categorization is monotone in
the quantity: rows of the same table with quantities a ≤ b satisfy
category(a) ≤ category(b) under SMALL < MEDIUM < LARGE. -/
theorem categorize_trades_total_monotone (df : List CvdRow) :
    (∀ r ∈ (categorize_trades df).1,
      r.category = "small" ∨ r.category = "medium" ∨ r.category = "large") ∧
    (∀ r1 ∈ (categorize_trades df).1, ∀ r2 ∈ (categorize_trades df).1,
      r1.quantity ≤ r2.quantity → catRank r1.category ≤ catRank r2.category)
    := by
  constructor
  · intro r hr
    obtain ⟨x, hx, rfl⟩ := List.mem_map.mp hr
    exact selectCategory_mem _ _ _
  · intro r1 h1 r2 h2 hq
    obtain ⟨x1, hx1, rfl⟩ := List.mem_map.mp h1
    obtain ⟨x2, hx2, rfl⟩ := List.mem_map.mp h2
    exact selectCategory_monotone _ _ hq

lemma getD_mem {α : Type} {l : List α} {i : ℕ} (d : α) (h : i < l.length) :
    l.getD i d ∈ l := by
  rw [List.getD_eq_getElem?_getD, List.getElem?_eq_getElem h, Option.getD_some]
  exact List.getElem_mem h

/-- Witness for C3: in the categorized three-trade scenario, the first row
(quantity 1) ranks no higher than the second (quantity 2). -/
theorem categorize_trades_total_monotone_witness :
    catRank (((categorize_trades (calculate_cvd exTrades)).1.getD 0
        catRow0).category)
      ≤ catRank (((categorize_trades (calculate_cvd exTrades)).1.getD 1
        catRow0).category) :=
  (categorize_trades_total_monotone (calculate_cvd exTrades)).2
    _ (getD_mem catRow0 (by decide)) _ (getD_mem catRow0 (by decide))
    (by decide)

/-- C8: on a non-empty table whose rows all share one quantity q, the three
thresholds all equal q and every row gets the same single category, which
lies in {medium, large} (by the literal boundaries it is in fact large:
q < q fails, q ≥ q ∧ q < q fails, q ≥ q holds). -/
theorem categorize_trades_ties (df : List CvdRow) (q0 : ℚ) (hdf : df ≠ [])
    (hall : ∀ r ∈ df, r.quantity = q0) :
    (categorize_trades df).2 = (.fin q0, .fin q0, .fin q0) ∧
    ∃ c, (c = "medium" ∨ c = "large") ∧
      ∀ r ∈ (categorize_trades df).1, r.category = c := by
  have hqs : df.map (·.quantity) ≠ [] := by simpa using hdf
  have hallq : ∀ x ∈ df.map (·.quantity), x = q0 := by
    intro x hx
    obtain ⟨r, hr, rfl⟩ := List.mem_map.mp hx
    exact hall r hr
  have e50 := quantile_const (df.map (·.quantity)) q0 hqs hallq
    (show (0 : ℚ) ≤ 1 / 2 by norm_num) (show (1 : ℚ) / 2 ≤ 1 by norm_num)
  have e75 := quantile_const (df.map (·.quantity)) q0 hqs hallq
    (show (0 : ℚ) ≤ 3 / 4 by norm_num) (show (3 : ℚ) / 4 ≤ 1 by norm_num)
  have e90 := quantile_const (df.map (·.quantity)) q0 hqs hallq
    (show (0 : ℚ) ≤ 9 / 10 by norm_num) (show (9 : ℚ) / 10 ≤ 1 by norm_num)
  constructor
  · show (quantile (df.map (·.quantity)) (1 / 2),
      quantile (df.map (·.quantity)) (3 / 4),
      quantile (df.map (·.quantity)) (9 / 10))
        = (NpFloat.fin q0, NpFloat.fin q0, NpFloat.fin q0)
    rw [e50, e75, e90]
  · refine ⟨"large", Or.inr rfl, ?_⟩
    intro r hr
    obtain ⟨x, hx, rfl⟩ := List.mem_map.mp hr
    show selectCategory (quantile (df.map (·.quantity)) (1 / 2))
      (quantile (df.map (·.quantity)) (3 / 4)) x.quantity = "large"
    rw [e50, e75, hall x hx]
    exact selectCategory_large le_rfl le_rfl

/-- Witness for C8: a two-row table with both quantities 5 has all three
thresholds equal to 5 and one shared category. -/
theorem categorize_trades_ties_witness :
    (categorize_trades
        [{ ts := 0, price := 1, quantity := 5, side := "buy",
           volume_delta := 5, cvd := 5 },
         { ts := 1, price := 2, quantity := 5, side := "sell",
           volume_delta := -5, cvd := 0 }]).2
      = (.fin 5, .fin 5, .fin 5) ∧
    ∃ c, (c = "medium" ∨ c = "large") ∧
      ∀ r ∈ (categorize_trades
        [{ ts := 0, price := 1, quantity := 5, side := "buy",
           volume_delta := 5, cvd := 5 },
         { ts := 1, price := 2, quantity := 5, side := "sell",
           volume_delta := -5, cvd := 0 }]).1, r.category = c :=
  categorize_trades_ties _ 5 (by decide) (by decide)

/-! ### Liquidity window lemmas -/

lemma foldl_min_le_init (l : List ℕ) : ∀ a : ℕ, l.foldl min a ≤ a := by
  induction l with
  | nil => intro a; exact le_refl a
  | cons x xs ih => intro a; exact le_trans (ih (min a x)) (min_le_left a x)

lemma foldl_min_le_mem (l : List ℕ) : ∀ a x : ℕ, x ∈ l → l.foldl min a ≤ x := by
  induction l with
  | nil => intro a x hx; simp at hx
  | cons y ys ih =>
      intro a x hx
      rcases List.mem_cons.mp hx with h | h
      · subst h
        exact le_trans (foldl_min_le_init ys (min a x)) (min_le_right a x)
      · exact ih (min a y) x h

lemma le_foldl_max_init (l : List ℕ) : ∀ a : ℕ, a ≤ l.foldl max a := by
  induction l with
  | nil => intro a; exact le_refl a
  | cons x xs ih => intro a; exact le_trans (le_max_left a x) (ih (max a x))

lemma mem_le_foldl_max (l : List ℕ) : ∀ a x : ℕ, x ∈ l → x ≤ l.foldl max a := by
  induction l with
  | nil => intro a x hx; simp at hx
  | cons y ys ih =>
      intro a x hx
      rcases List.mem_cons.mp hx with h | h
      · subst h
        exact le_trans (le_max_right a x) (le_foldl_max_init ys (max a x))
      · exact ih (max a y) x h

lemma map_sum_zero (ks : List ℕ) : (ks.map (fun _ => (0 : ℚ))).sum = 0 := by
  induction ks with
  | nil => rfl
  | cons k ks ih => simp [ih]

lemma map_sum_add (ks : List ℕ) (g h : ℕ → ℚ) :
    (ks.map (fun k => g k + h k)).sum = (ks.map g).sum + (ks.map h).sum := by
  induction ks with
  | nil => simp
  | cons k ks ih => simp only [List.map_cons, List.sum_cons, ih]; ring

lemma sum_ite_not_mem (ks : List ℕ) (k0 : ℕ) (c : ℚ) (h : k0 ∉ ks) :
    (ks.map (fun k => if k0 = k then c else 0)).sum = 0 := by
  induction ks with
  | nil => rfl
  | cons k ks ih =>
      simp only [List.map_cons, List.sum_cons]
      rw [if_neg (fun he => h (by rw [he]; exact List.mem_cons_self k ks)),
        ih (fun hm => h (List.mem_cons_of_mem _ hm))]
      ring

lemma sum_ite_mem (ks : List ℕ) (k0 : ℕ) (c : ℚ) (hnd : ks.Nodup)
    (hm : k0 ∈ ks) :
    (ks.map (fun k => if k0 = k then c else 0)).sum = c := by
  induction ks with
  | nil => simp at hm
  | cons k ks ih =>
      simp only [List.map_cons, List.sum_cons]
      rcases List.mem_cons.mp hm with h | h
      · subst h
        rw [if_pos rfl, sum_ite_not_mem ks k0 c (List.nodup_cons.mp hnd).1]
        ring
      · have hk : k0 ≠ k := by
          intro he
          subst he
          exact (List.nodup_cons.mp hnd).1 h
        rw [if_neg hk, ih (List.nodup_cons.mp hnd).2 h]
        ring

/-- Summing the per-bucket quantity sums over a duplicate-free list of
buckets that covers every row recovers the whole table's quantity sum. -/
lemma sum_fiber (H : ℕ) (ks : List ℕ) (l : List CatRow) (hnd : ks.Nodup)
    (hmem : ∀ r ∈ l, r.ts / H ∈ ks) :
    (ks.map (fun k =>
      ((l.filter (fun r => r.ts / H = k)).map (·.quantity)).sum)).sum
      = (l.map (·.quantity)).sum := by
  induction l with
  | nil => simp [map_sum_zero]
  | cons r l ih =>
      have hr : r.ts / H ∈ ks := hmem r (List.mem_cons_self r l)
      have hl : ∀ x ∈ l, x.ts / H ∈ ks :=
        fun x hx => hmem x (List.mem_cons_of_mem r hx)
      have hsplit : ∀ k : ℕ,
          (((r :: l).filter (fun x => x.ts / H = k)).map (·.quantity)).sum
            = (if r.ts / H = k then r.quantity else 0)
              + ((l.filter (fun x => x.ts / H = k)).map (·.quantity)).sum := by
        intro k
        by_cases h : r.ts / H = k
        · simp [List.filter_cons, h]
        · simp [List.filter_cons, h]
      simp only [hsplit]
      rw [map_sum_add, sum_ite_mem ks _ _ hnd hr, ih hl]
      simp
/-- C7: the windows produced by `analyze_liquidity` partition the input:
the per-window volumes sum to the total quantity sum, and consecutive
window starts differ by exactly the window width `H` — which makes the
left-closed width-`H` windows contiguous, non-overlapping and sorted
ascending by start time. -/
theorem analyze_liquidity_partition (df : List CatRow) (H : ℕ) :
    ((analyze_liquidity df H).map (·.volume)).sum
      = (df.map (·.quantity)).sum ∧
    ∀ j, j + 1 < (analyze_liquidity df H).length →
      ((analyze_liquidity df H).getD (j + 1) liqWindow0).window_start
        = ((analyze_liquidity df H).getD j liqWindow0).window_start + H := by
  cases df with
  | nil =>
      refine ⟨rfl, ?_⟩
      intro j hj
      simp [analyze_liquidity] at hj
  | cons r rs =>
      set lo := (((r :: rs).map (fun x => x.ts / H)).foldl min (r.ts / H))
        with hlo
      set hi := (((r :: rs).map (fun x => x.ts / H)).foldl max (r.ts / H))
        with hhi
      have heq : analyze_liquidity (r :: rs) H
          = (List.range (hi + 1 - lo)).map
              (fun j => mkWindow H (r :: rs) (lo + j)) := rfl
      have hmemlo : ∀ x ∈ (r :: rs), lo ≤ x.ts / H := fun x hx =>
        foldl_min_le_mem _ _ _ (List.mem_map_of_mem _ hx)
      have hmemhi : ∀ x ∈ (r :: rs), x.ts / H ≤ hi := fun x hx =>
        mem_le_foldl_max _ _ _ (List.mem_map_of_mem _ hx)
      constructor
      · rw [heq, List.map_map]
        have hvol : ((fun w => LiqWindow.volume w) ∘
            fun j => mkWindow H (r :: rs) (lo + j))
              = fun j => (((r :: rs).filter
                  (fun x => x.ts / H = lo + j)).map (·.quantity)).sum := rfl
        rw [hvol]
        have hmm : (List.range (hi + 1 - lo)).map
            (fun j => (((r :: rs).filter
              (fun x => x.ts / H = lo + j)).map (·.quantity)).sum)
            = ((List.range (hi + 1 - lo)).map (fun j => lo + j)).map
                (fun k => (((r :: rs).filter
                  (fun x => x.ts / H = k)).map (·.quantity)).sum) := by
          rw [List.map_map]
          rfl
        rw [hmm]
        apply sum_fiber
        · exact ((List.nodup_range _).map (fun u v huv => by omega))
        · intro x hx
          refine List.mem_map.mpr ⟨x.ts / H - lo, List.mem_range.mpr ?_, ?_⟩
          · have h1 := hmemlo x hx
            have h2 := hmemhi x hx
            omega
          · have h1 := hmemlo x hx
            omega
      · intro j hj
        have hlen : (analyze_liquidity (r :: rs) H).length = hi + 1 - lo := by
          rw [heq]; simp
        have hw : ∀ i, i < hi + 1 - lo →
            (analyze_liquidity (r :: rs) H).getD i liqWindow0
              = mkWindow H (r :: rs) (lo + i) := by
          intro i hi'
          rw [heq, List.getD_eq_getElem?_getD,
            List.getElem?_eq_getElem (by simpa using hi'), Option.getD_some,
            List.getElem_map]
          congr 1
          simp
        rw [hlen] at hj
        rw [hw (j + 1) hj, hw j (by omega)]
        show (lo + (j + 1)) * H = (lo + j) * H + H
        ring

/-- Two trades more than one whole bucket apart: with bucket width 2 the
resample range is buckets 0, 1, 2 and bucket 1 holds no trade. -/
def exGapTrades : List Trade :=
  [{ ts := 0, price := 100, quantity := 1, side := "buy" },
   { ts := 5, price := 101, quantity := 2, side := "sell" }]

def exGapCat : List CatRow := (categorize_trades (calculate_cvd exGapTrades)).1

/-- Witness for C7: on the two-trade gap table with width 2, window 1
starts exactly one width after window 0. -/
theorem analyze_liquidity_partition_witness :
    ((analyze_liquidity exGapCat 2).getD (0 + 1) liqWindow0).window_start
      = ((analyze_liquidity exGapCat 2).getD 0 liqWindow0).window_start + 2 :=
  (analyze_liquidity_partition exGapCat 2).2 0 (by decide)

/-- Counterexample for C6: the zero-trade middle window is not skipped and
carries no flag — `analyze_liquidity` emits it as an ordinary row whose
OHLC, cvd and volatility_pct are the bare float NaN sitting in the same
fields as ordinary numbers (the output schema has no no-activity marker). -/
theorem analyze_liquidity_silent_nan :
    (analyze_liquidity exGapCat 2).length = 3 ∧
    (analyze_liquidity exGapCat 2).getD 1 liqWindow0
      = { window_start := 2, volume := 0, open_ := .nan, close := .nan,
          low := .nan, high := .nan, cvd := .nan, volatility := .nan } := by
  constructor
  · decide
  · decide

/-- C6 as amended: every time window in the span that contains zero trades
is emitted (not skipped) as a row with volume 0 and NaN open/close/low/high
and cvd, and its volatility_pct is the NaN produced by NaN arithmetic —
silent and unflagged, since `LiqWindow` carries no no-activity variant. -/
theorem analyze_liquidity_empty_window (df : List CatRow) (H : ℕ)
    (hH : 0 < H) :
    ∀ w ∈ analyze_liquidity df H,
      df.filter (fun r => r.ts / H = w.window_start / H) = [] →
      w.volume = 0 ∧ w.open_ = .nan ∧ w.close = .nan ∧ w.low = .nan ∧
        w.high = .nan ∧ w.cvd = .nan ∧ w.volatility = .nan := by
  intro w hw hflt
  cases df with
  | nil => simp [analyze_liquidity] at hw
  | cons r rs =>
      set lo := (((r :: rs).map (fun x => x.ts / H)).foldl min (r.ts / H))
        with hlo
      set hi := (((r :: rs).map (fun x => x.ts / H)).foldl max (r.ts / H))
        with hhi
      have heq : analyze_liquidity (r :: rs) H
          = (List.range (hi + 1 - lo)).map
              (fun j => mkWindow H (r :: rs) (lo + j)) := rfl
      rw [heq] at hw
      obtain ⟨j, hj, rfl⟩ := List.mem_map.mp hw
      have hstart : (mkWindow H (r :: rs) (lo + j)).window_start / H
          = lo + j := by
        show (lo + j) * H / H = lo + j
        exact Nat.mul_div_cancel _ hH
      rw [hstart] at hflt
      refine ⟨?_, ?_, ?_, ?_, ?_, ?_, ?_⟩ <;>
        simp [mkWindow, hflt, NpFloat.sub, NpFloat.div, NpFloat.mul]

/-- Witness for C6 (amended): on the gap table, window 1 contains no trade
and indeed has zero volume and NaN open and volatility. -/
theorem analyze_liquidity_empty_window_witness :
    ((analyze_liquidity exGapCat 2).getD 1 liqWindow0).volume = 0 ∧
    ((analyze_liquidity exGapCat 2).getD 1 liqWindow0).open_ = .nan ∧
    ((analyze_liquidity exGapCat 2).getD 1 liqWindow0).close = .nan ∧
    ((analyze_liquidity exGapCat 2).getD 1 liqWindow0).low = .nan ∧
    ((analyze_liquidity exGapCat 2).getD 1 liqWindow0).high = .nan ∧
    ((analyze_liquidity exGapCat 2).getD 1 liqWindow0).cvd = .nan ∧
    ((analyze_liquidity exGapCat 2).getD 1 liqWindow0).volatility = .nan :=
  analyze_liquidity_empty_window exGapCat 2 (by decide)
    _ (getD_mem liqWindow0 (by decide)) (by decide)

/-! ### Dominance lemmas -/

lemma sum_map_quantity_nonneg (l : List CatRow)
    (h : ∀ r ∈ l, 0 ≤ r.quantity) : 0 ≤ (l.map (·.quantity)).sum := by
  induction l with
  | nil => simp
  | cons r l ih =>
      have hr := h r (List.mem_cons_self r l)
      have hl : ∀ x ∈ l, 0 ≤ x.quantity :=
        fun x hx => h x (List.mem_cons_of_mem r hx)
      simp only [List.map_cons, List.sum_cons]
      linarith [ih hl]

lemma sum_filter_le (p : CatRow → Bool) (l : List CatRow)
    (h : ∀ r ∈ l, 0 ≤ r.quantity) :
    ((l.filter p).map (·.quantity)).sum ≤ (l.map (·.quantity)).sum := by
  induction l with
  | nil => simp
  | cons r l ih =>
      have hr := h r (List.mem_cons_self r l)
      have hl : ∀ x ∈ l, 0 ≤ x.quantity :=
        fun x hx => h x (List.mem_cons_of_mem r hx)
      by_cases hp : p r
      · simp only [List.filter_cons, hp, if_true, List.map_cons,
          List.sum_cons]
        linarith [ih hl]
      · simp [List.filter_cons, hp]
        linarith [ih hl]

lemma sum_buy_sell_le (l : List CatRow) (h : ∀ r ∈ l, 0 ≤ r.quantity) :
    ((l.filter (fun r => r.side = "buy")).map (·.quantity)).sum
      + ((l.filter (fun r => r.side = "sell")).map (·.quantity)).sum
      ≤ (l.map (·.quantity)).sum := by
  induction l with
  | nil => simp
  | cons r l ih =>
      have hr := h r (List.mem_cons_self r l)
      have hl : ∀ x ∈ l, 0 ≤ x.quantity :=
        fun x hx => h x (List.mem_cons_of_mem r hx)
      by_cases hb : r.side = "buy" <;> by_cases hs : r.side = "sell"
      · rw [hb] at hs
        exact absurd hs (by decide)
      · simp [List.filter_cons, hb, hs]
        linarith [ih hl]
      · simp [List.filter_cons, hb, hs]
        linarith [ih hl]
      · simp [List.filter_cons, hb, hs]
        linarith [ih hl]

lemma sum_filter_quantity_nonneg (p : CatRow → Bool) (l : List CatRow)
    (h : ∀ r ∈ l, 0 ≤ r.quantity) :
    0 ≤ ((l.filter p).map (·.quantity)).sum :=
  sum_map_quantity_nonneg _ (fun r hr => h r (List.mem_of_mem_filter hr))

/-- C4 as amended: for a non-empty categorized table with nonnegative
quantities, market-maker dominance is the float
(LARGE buy_volume + LARGE sell_volume) / total_volume * 100, finite and in
[0, 100] whenever total volume is strictly positive; when total volume is
zero the code still performs the float division, which yields the bare NaN
(0/0) — an unlabeled NaN, not an explicit undefined report and not a
crash. -/
theorem mm_dominance_spec (df : List CatRow)
    (ps : NpFloat × NpFloat × NpFloat)
    (hq : ∀ r ∈ df, 0 ≤ r.quantity) (hne : df ≠ []) :
    (0 < (df.map (·.quantity)).sum →
      ∃ d : ℚ,
        (analyze_market_maker_activity df ps).map
            (·.market_maker_dominance) = some (.fin d) ∧
        d = ((catStatsOf df "large").buy_volume
              + (catStatsOf df "large").sell_volume)
            / (df.map (·.quantity)).sum * 100 ∧
        0 ≤ d ∧ d ≤ 100) ∧
    ((df.map (·.quantity)).sum = 0 →
      (analyze_market_maker_activity df ps).map
          (·.market_maker_dominance) = some NpFloat.nan) := by
  cases df with
  | nil => exact absurd rfl hne
  | cons r rs =>
      have hproj : (analyze_market_maker_activity (r :: rs) ps).map
          (·.market_maker_dominance)
          = some (((NpFloat.fin ((catStatsOf (r :: rs) "large").buy_volume
              + (catStatsOf (r :: rs) "large").sell_volume)).div
                (.fin (((r :: rs).map (·.quantity)).sum))).mul
                  (.fin 100)) := rfl
      have hql : ∀ x ∈ (r :: rs).filter (fun x => x.category = "large"),
          0 ≤ x.quantity := fun x hx => hq x (List.mem_of_mem_filter hx)
      have hmm0 : 0 ≤ (catStatsOf (r :: rs) "large").buy_volume
          + (catStatsOf (r :: rs) "large").sell_volume :=
        add_nonneg (sum_filter_quantity_nonneg _ _ hql)
          (sum_filter_quantity_nonneg _ _ hql)
      have hmmT : (catStatsOf (r :: rs) "large").buy_volume
          + (catStatsOf (r :: rs) "large").sell_volume
          ≤ ((r :: rs).map (·.quantity)).sum := by
        have h1 := sum_buy_sell_le
          ((r :: rs).filter (fun x => x.category = "large")) hql
        have h2 := sum_filter_le (fun x => x.category = "large") (r :: rs) hq
        calc (catStatsOf (r :: rs) "large").buy_volume
              + (catStatsOf (r :: rs) "large").sell_volume
            ≤ (((r :: rs).filter (fun x => x.category = "large")).map
                (·.quantity)).sum := h1
          _ ≤ ((r :: rs).map (·.quantity)).sum := h2
      constructor
      · intro hpos
        have hT0 : ((r :: rs).map (·.quantity)).sum ≠ 0 := ne_of_gt hpos
        refine ⟨((catStatsOf (r :: rs) "large").buy_volume
            + (catStatsOf (r :: rs) "large").sell_volume)
              / ((r :: rs).map (·.quantity)).sum * 100,
          ?_, rfl, ?_, ?_⟩
        · rw [hproj]
          have hdiv : (NpFloat.fin ((catStatsOf (r :: rs) "large").buy_volume
              + (catStatsOf (r :: rs) "large").sell_volume)).div
                (.fin (((r :: rs).map (·.quantity)).sum))
              = .fin (((catStatsOf (r :: rs) "large").buy_volume
                  + (catStatsOf (r :: rs) "large").sell_volume)
                / (((r :: rs).map (·.quantity)).sum)) := by
            simp only [NpFloat.div]
            rw [if_neg hT0]
          rw [hdiv]
          rfl
        · exact mul_nonneg (div_nonneg hmm0 (le_of_lt hpos)) (by norm_num)
        · calc ((catStatsOf (r :: rs) "large").buy_volume
                + (catStatsOf (r :: rs) "large").sell_volume)
                  / ((r :: rs).map (·.quantity)).sum * 100
              ≤ 1 * 100 := by
                have hle := (div_le_one hpos).mpr hmmT
                nlinarith
            _ = 100 := by norm_num
      · intro hz
        have hmz : (catStatsOf (r :: rs) "large").buy_volume
            + (catStatsOf (r :: rs) "large").sell_volume = 0 :=
          le_antisymm (hz ▸ hmmT) hmm0
        rw [hproj, hmz, hz]
        rfl

/-- Witness for C4 (amended): on the specification's three-trade scenario
(total volume 4) the dominance is finite and within [0, 100]. -/
theorem mm_dominance_spec_witness :
    ∃ d : ℚ,
      (analyze_market_maker_activity
          (categorize_trades (calculate_cvd exTrades)).1
          (categorize_trades (calculate_cvd exTrades)).2).map
            (·.market_maker_dominance) = some (.fin d) ∧
      d = ((catStatsOf (categorize_trades (calculate_cvd exTrades)).1
              "large").buy_volume
            + (catStatsOf (categorize_trades (calculate_cvd exTrades)).1
              "large").sell_volume)
          / (((categorize_trades (calculate_cvd exTrades)).1.map
              (·.quantity)).sum) * 100 ∧
      0 ≤ d ∧ d ≤ 100 :=
  (mm_dominance_spec (categorize_trades (calculate_cvd exTrades)).1
      (categorize_trades (calculate_cvd exTrades)).2
      (by decide) (by decide)).1
    (by norm_num [categorize_trades, calculate_cvd, cvdGo, volumeDeltaOf,
      exTrades])

/-- A single zero-quantity trade: total traded volume is 0. -/
def exZeroTrades : List Trade :=
  [{ ts := 0, price := 100, quantity := 0, side := "buy" }]

def exZeroCat : List CatRow := (categorize_trades (calculate_cvd exZeroTrades)).1

/-- Counterexample for C4: on a table whose total volume is zero the code
does not report the dominance as explicitly undefined — line 97 performs
the float division anyway and stores the bare NaN (0/0) in the same
numeric field that otherwise holds percentages, with no marker and no
error. -/
theorem mm_dominance_zero_total_nan :
    (analyze_market_maker_activity exZeroCat
        (categorize_trades (calculate_cvd exZeroTrades)).2).map
      (·.market_maker_dominance) = some NpFloat.nan := by
  have hq : ∀ r ∈ exZeroCat, 0 ≤ r.quantity := by decide
  have hT : (exZeroCat.map (·.quantity)).sum = 0 := by
    norm_num [exZeroCat, exZeroTrades, categorize_trades, calculate_cvd,
      cvdGo, volumeDeltaOf]
  have hql : ∀ x ∈ exZeroCat.filter (fun x => x.category = "large"),
      0 ≤ x.quantity := fun x hx => hq x (List.mem_of_mem_filter hx)
  have hmm0 : 0 ≤ (catStatsOf exZeroCat "large").buy_volume
      + (catStatsOf exZeroCat "large").sell_volume :=
    add_nonneg (sum_filter_quantity_nonneg _ _ hql)
      (sum_filter_quantity_nonneg _ _ hql)
  have hmmT : (catStatsOf exZeroCat "large").buy_volume
      + (catStatsOf exZeroCat "large").sell_volume
      ≤ (exZeroCat.map (·.quantity)).sum := by
    have h1 := sum_buy_sell_le
      (exZeroCat.filter (fun x => x.category = "large")) hql
    have h2 := sum_filter_le (fun x => x.category = "large") exZeroCat hq
    calc (catStatsOf exZeroCat "large").buy_volume
          + (catStatsOf exZeroCat "large").sell_volume
        ≤ ((exZeroCat.filter (fun x => x.category = "large")).map
            (·.quantity)).sum := h1
      _ ≤ (exZeroCat.map (·.quantity)).sum := h2
  have hmz : (catStatsOf exZeroCat "large").buy_volume
      + (catStatsOf exZeroCat "large").sell_volume = 0 :=
    le_antisymm (hT ▸ hmmT) hmm0
  have hproj : (analyze_market_maker_activity exZeroCat
      (categorize_trades (calculate_cvd exZeroTrades)).2).map
        (·.market_maker_dominance)
      = some (((NpFloat.fin ((catStatsOf exZeroCat "large").buy_volume
          + (catStatsOf exZeroCat "large").sell_volume)).div
            (.fin ((exZeroCat.map (·.quantity)).sum))).mul
              (.fin 100)) := rfl
  rw [hproj, hmz, hT]
  rfl

/-- The specification's convention for the CVD volatility, squared: the
sample variance, i.e. sum of squared deviations from the mean divided by
n - 1. -/
def sampleVariance (xs : List ℚ) : ℚ :=
  ((xs.map (fun x => (x - xs.sum / (xs.length : ℚ)) ^ 2)).sum)
    / ((xs.length : ℚ) - 1)

/-- C9: the cvd_volatility reported by `analyze_market_maker_activity` is
`pandas.Series.std()`, whose default ddof=1 makes it the sample standard
deviation: for n ≥ 2 rows its square equals the sample variance (divisor
n - 1) of the full cvd column, and for n < 2 it is NaN (undefined), never
zero. -/
theorem cvd_volatility_sample_std (df : List CatRow)
    (ps : NpFloat × NpFloat × NpFloat) :
    (2 ≤ df.length →
      (analyze_market_maker_activity df ps).map
          (fun a => a.cvd_stats.cvd_volatility_sq)
        = some (.fin (sampleVariance (df.map (·.cvd))))) ∧
    (df.length < 2 → ∀ a, analyze_market_maker_activity df ps = some a →
      a.cvd_stats.cvd_volatility_sq = NpFloat.nan) := by
  constructor
  · intro h2
    cases df with
    | nil => simp at h2
    | cons r rs =>
        have hproj : (analyze_market_maker_activity (r :: rs) ps).map
            (fun a => a.cvd_stats.cvd_volatility_sq)
            = some (seriesStdSq ((r :: rs).map (·.cvd))) := rfl
        rw [hproj]
        congr 1
        have hlen : ¬ (((r :: rs).map (·.cvd)).length ≤ 1) := by
          simp only [List.length_map, List.length_cons]
          simp only [List.length_cons] at h2
          omega
        rw [seriesStdSq, if_neg hlen]
        rfl
  · intro hlt a ha
    cases df with
    | nil => simp [analyze_market_maker_activity] at ha
    | cons r rs =>
        have hrs : rs = [] := by
          cases rs with
          | nil => rfl
          | cons b bs => simp at hlt; omega
        subst hrs
        have ha' := Option.some.inj ha.symm
        rw [ha']
        rfl

/-- Witness for C9: on the categorized three-trade scenario (3 rows) the
stored volatility squared is exactly the sample variance of the cvd
column. -/
theorem cvd_volatility_sample_std_witness :
    (analyze_market_maker_activity
        (categorize_trades (calculate_cvd exTrades)).1
        (categorize_trades (calculate_cvd exTrades)).2).map
      (fun a => a.cvd_stats.cvd_volatility_sq)
      = some (.fin (sampleVariance
          (((categorize_trades (calculate_cvd exTrades)).1).map (·.cvd)))) :=
  (cvd_volatility_sample_std (categorize_trades (calculate_cvd exTrades)).1
      (categorize_trades (calculate_cvd exTrades)).2).1 (by decide)
